import Mathlib

/-!
# Verification of the PureMVC TypeScript core (View / Model registries)

Shallow embedding of the observer-dispatch core of the PureMVC TypeScript
standard framework:

* `Observer` — the (notifyMethod, notifyContext) pair of
  `patterns/observer/Observer`; reference identities of the callback and of
  the context object are modelled as natural numbers.
* `ViewState` — the two maps of `core/View` (`#mediatorMap`, `#observerMap`),
  modelled as insertion-ordered association lists, matching the iteration
  order of a JavaScript `Map`.
* `ModelState` — the `#proxyMap` of `core/Model`.

Application-supplied callbacks (`handleNotification`, `onRegister`,
`onRemove`, the observer notify methods) are external to the core: their
invocations are recorded as events / traces, and `notifyObservers` is
parameterised by a semantics `run` assigning to each (method, context) pair
a state transformer on an abstract world `σ` that may fail (`Except`),
modelling async handlers that may reject.  `listNotificationInterests()` is
an application method queried by the core at call time, so its result at
that instant is passed as an explicit argument.
-/

/-- Insertion-ordered association-list lookup (JavaScript `Map.get`). -/
def alGet {α : Type} : List (String × α) → String → Option α
  | [], _ => none
  | (k, v) :: rest, key => if k = key then some v else alGet rest key

/-- `Map.set`: update the (unique) existing binding in place, else append
a fresh binding at the end, matching `Map` insertion order. -/
def alSet {α : Type} : List (String × α) → String → α → List (String × α)
  | [], key, val => [(key, val)]
  | (k, v) :: rest, key, val =>
      if k = key then (key, val) :: rest else (k, v) :: alSet rest key val

/-- `Map.delete`: remove the binding for a key. -/
def alDelete {α : Type} : List (String × α) → String → List (String × α)
  | [], _ => []
  | (k, v) :: rest, key =>
      if k = key then alDelete rest key else (k, v) :: alDelete rest key

/-- `Map.has`. -/
def alHas {α : Type} (m : List (String × α)) (key : String) : Bool :=
  (alGet m key).isSome

/-- A notification: named message with an (opaque, here numeric) body.
`name` is what `getName()` returns. -/
structure Notification where
  name : String
  body : Int
deriving DecidableEq, Repr

/-- An `Observer` instance: `notify` (the callback, by reference identity)
and `context` (the notify context object, by reference identity). -/
structure Observer where
  notify : Nat
  context : Nat
deriving DecidableEq, Repr

/-- `Observer.compareNotifyContext(object)`: `object === this.context`. -/
def Observer.compareNotifyContext (o : Observer) (object : Nat) : Bool :=
  object == o.context

/-- A mediator reference: its name, its reference identity `ctx` (used as
the notify context of the observer created for it), and the identity of its
`handleNotification` method. -/
structure Mediator where
  name : String
  ctx : Nat
  handler : Nat
deriving DecidableEq, Repr

/-- Lifecycle events the core fires into application code. -/
inductive Event where
  | onRegister (ctx : Nat)
  | onRemove (ctx : Nat)
deriving DecidableEq, Repr

/-- The state of the `View` singleton object: `#mediatorMap` and
`#observerMap`. -/
structure ViewState where
  mediatorMap : List (String × Mediator)
  observerMap : List (String × List Observer)
deriving DecidableEq, Repr

/-- A freshly constructed `View` (both maps are `new Map()`). -/
def ViewState.empty : ViewState := ⟨[], []⟩

/-- `View.registerObserver(notificationName, observer)`: push onto the
existing list, or create a singleton list for a fresh name. -/
def registerObserver (v : ViewState) (notificationName : String)
    (observer : Observer) : ViewState :=
  match alGet v.observerMap notificationName with
  | some observers =>
      { v with observerMap :=
          alSet v.observerMap notificationName (observers ++ [observer]) }
  | none =>
      { v with observerMap :=
          alSet v.observerMap notificationName [observer] }

/-- One step of the `while (i--)` scan of `View.removeObserver`: remove the
first observer (scanning this list front-to-back) whose
`compareNotifyContext(notifyContext)` holds, then stop. -/
def removeFirstMatch (notifyContext : Nat) : List Observer → List Observer
  | [] => []
  | o :: rest =>
      if o.compareNotifyContext notifyContext then rest
      else o :: removeFirstMatch notifyContext rest

/-- The source scans from the END of the array (`let i = length; while
(i--)`) and splices out the first match found, i.e. the LAST matching
observer of the list. -/
def removeLastMatch (notifyContext : Nat) (observers : List Observer) :
    List Observer :=
  (removeFirstMatch notifyContext observers.reverse).reverse

/-- `View.removeObserver(notificationName, notifyContext)`: no-op on an
unknown name; otherwise splice out the last matching observer and delete
the map entry when the list becomes empty. -/
def removeObserver (v : ViewState) (notificationName : String)
    (notifyContext : Nat) : ViewState :=
  match alGet v.observerMap notificationName with
  | none => v
  | some observers =>
      let observers' := removeLastMatch notifyContext observers
      if observers'.length = 0 then
        { v with observerMap := alDelete v.observerMap notificationName }
      else
        { v with observerMap :=
            alSet v.observerMap notificationName observers' }

/-- `Observer.notifyObserver(notification)` under handler semantics `run`:
`await this.getNotifyMethod().call(this.getNotifyContext(), notification)`. -/
def notifyObserver {σ Err : Type}
    (run : Nat → Nat → Notification → σ → Except Err σ)
    (o : Observer) (n : Notification) (w : σ) : Except Err σ :=
  run o.notify o.context n w

/-- The `for (const observer of observers) await observer.notifyObserver(n)`
loop, instrumented with the trace of invocations actually performed:
on failure the loop aborts, having invoked only the observers up to and
including the failing one. -/
def notifyLoop {σ Err : Type}
    (run : Nat → Nat → Notification → σ → Except Err σ) :
    List Observer → Notification → σ →
      Except Err σ × List (Observer × Notification)
  | [], _, w => (Except.ok w, [])
  | o :: rest, n, w =>
      match notifyObserver run o n w with
      | Except.error e => (Except.error e, [(o, n)])
      | Except.ok w' =>
          let r := notifyLoop run rest n w'
          (r.1, (o, n) :: r.2)

/-- The same loop without instrumentation: the plain sequential fold the
source performs, each handler awaited before the next starts. -/
def seqNotify {σ Err : Type}
    (run : Nat → Nat → Notification → σ → Except Err σ) :
    List Observer → Notification → σ → Except Err σ
  | [], _, w => Except.ok w
  | o :: rest, n, w =>
      match notifyObserver run o n w with
      | Except.error e => Except.error e
      | Except.ok w' => seqNotify run rest n w'

/-- `View.notifyObservers(notification)`: look up the list under
`notification.getName()`; return at once when absent, else run the
sequential await loop.  Returns the outcome on the world plus the trace of
`notifyObserver` invocations. -/
def notifyObservers {σ Err : Type}
    (run : Nat → Nat → Notification → σ → Except Err σ)
    (v : ViewState) (n : Notification) (w : σ) :
    Except Err σ × List (Observer × Notification) :=
  match alGet v.observerMap n.name with
  | none => (Except.ok w, [])
  | some observers => notifyLoop run observers n w

/-- `View.registerMediator(mediator)` where `interests` is the value
`mediator.listNotificationInterests()` returns at this call.  Re-registering
a present name is a silent no-op.  Otherwise store the mediator, build ONE
observer around its `handleNotification`/itself, register it under every
interest, then fire `onRegister`.  Returns the new state and the lifecycle
events fired. -/
def registerMediator (v : ViewState) (m : Mediator)
    (interests : List String) : ViewState × List Event :=
  if alHas v.mediatorMap m.name then (v, [])
  else
    let v1 := { v with mediatorMap := alSet v.mediatorMap m.name m }
    let observer : Observer := ⟨m.handler, m.ctx⟩
    let v2 :=
      if interests.length > 0 then
        interests.foldl (fun acc i => registerObserver acc i observer) v1
      else v1
    (v2, [Event.onRegister m.ctx])

/-- `View.retrieveMediator(mediatorName)`. -/
def retrieveMediator (v : ViewState) (mediatorName : String) :
    Option Mediator :=
  alGet v.mediatorMap mediatorName

/-- `View.removeMediator(mediatorName)` where `interests` is the value the
stored mediator's `listNotificationInterests()` returns at this call (the
source re-queries it at removal time).  Returns the new state, the removed
mediator (or `none`), and the lifecycle events fired. -/
def removeMediator (v : ViewState) (mediatorName : String)
    (interests : List String) : ViewState × Option Mediator × List Event :=
  match alGet v.mediatorMap mediatorName with
  | none => (v, none, [])
  | some m =>
      let v1 := interests.foldl (fun acc i => removeObserver acc i m.ctx) v
      let v2 := { v1 with mediatorMap := alDelete v1.mediatorMap mediatorName }
      (v2, some m, [Event.onRemove m.ctx])

/-- `View.hasMediator(mediatorName)`. -/
def hasMediator (v : ViewState) (mediatorName : String) : Bool :=
  alHas v.mediatorMap mediatorName

/-- `View.dispose()`: snapshot the mediator names, remove each (the
per-name `interestsOf` gives what each mediator's
`listNotificationInterests()` reports at its removal), then clear
`View.instance`.  Returns the disposed object's state and the new value of
the static `instance` field. -/
def viewDispose (v : ViewState) (interestsOf : String → List String) :
    ViewState × Option ViewState :=
  let names := v.mediatorMap.map Prod.fst
  let v' := names.foldl
    (fun acc name => (removeMediator acc name (interestsOf name)).1) v
  (v', none)

/-- The `View` constructor acting on the static `instance` field: throws
when an instance exists (before any mutation), else installs and returns
the fresh object. -/
def viewConstruct (inst : Option ViewState) :
    Option ViewState × Except String ViewState :=
  match inst with
  | some v => (some v, Except.error "View singleton already constructed!")
  | none => (some ViewState.empty, Except.ok ViewState.empty)

/-- `View.getInstance()`: construct lazily, return the instance. -/
def viewGetInstance (inst : Option ViewState) :
    Option ViewState × Except String ViewState :=
  match inst with
  | none => viewConstruct none
  | some v => (some v, Except.ok v)

/-- A proxy reference: its name, its reference identity `ctx`, and its data
payload (`getData()`), modelled as a list of strings. -/
structure Proxy where
  name : String
  ctx : Nat
  data : List String
deriving DecidableEq, Repr

/-- The state of the `Model` singleton object: `#proxyMap`. -/
structure ModelState where
  proxyMap : List (String × Proxy)
deriving DecidableEq, Repr

/-- A freshly constructed `Model`. -/
def ModelState.empty : ModelState := ⟨[]⟩

/-- `Model.registerProxy(proxy)`: unconditionally `Map.set`, then fire the
proxy's `onRegister` hook. -/
def registerProxy (m : ModelState) (p : Proxy) : ModelState × List Event :=
  (⟨alSet m.proxyMap p.name p⟩, [Event.onRegister p.ctx])

/-- `Model.retrieveProxy(proxyName)`: strict absent result on a miss. -/
def retrieveProxy (m : ModelState) (proxyName : String) : Option Proxy :=
  alGet m.proxyMap proxyName

/-- `Model.removeProxy(proxyName)`: when present, delete the binding and
fire `onRemove`; always return the looked-up proxy (absent on a miss). -/
def removeProxy (m : ModelState) (proxyName : String) :
    ModelState × Option Proxy × List Event :=
  match alGet m.proxyMap proxyName with
  | none => (m, none, [])
  | some p => (⟨alDelete m.proxyMap proxyName⟩, some p, [Event.onRemove p.ctx])

/-- `Model.hasProxy(proxyName)`. -/
def hasProxy (m : ModelState) (proxyName : String) : Bool :=
  alHas m.proxyMap proxyName

/-- `Model.dispose()`: snapshot the proxy names, remove each, clear
`Model.instance`. -/
def modelDispose (m : ModelState) : ModelState × Option ModelState :=
  let names := m.proxyMap.map Prod.fst
  let m' := names.foldl (fun acc name => (removeProxy acc name).1) m
  (m', none)

/-- The `Model` constructor acting on the static `instance` field: throws
when an instance exists (before any mutation), else installs and returns
the fresh object. -/
def modelConstruct (inst : Option ModelState) :
    Option ModelState × Except String ModelState :=
  match inst with
  | some m => (some m, Except.error "Model singleton already constructed!")
  | none => (some ModelState.empty, Except.ok ModelState.empty)

/-- `Model.getInstance()`. -/
def modelGetInstance (inst : Option ModelState) :
    Option ModelState × Except String ModelState :=
  match inst with
  | none => modelConstruct none
  | some m => (some m, Except.ok m)

/-! ## Association-list lemmas -/

theorem alGet_set_self {α : Type} (m : List (String × α)) (k : String)
    (v : α) : alGet (alSet m k v) k = some v := by
  induction m with
  | nil => simp [alSet, alGet]
  | cons p rest ih =>
      obtain ⟨k', v'⟩ := p
      by_cases h : k' = k
      · simp [alSet, alGet, h]
      · simp [alSet, alGet, h, ih]

theorem alGet_set_ne {α : Type} (m : List (String × α)) (k k' : String)
    (v : α) (h : k' ≠ k) : alGet (alSet m k v) k' = alGet m k' := by
  induction m with
  | nil => simp [alSet, alGet, Ne.symm h]
  | cons p rest ih =>
      obtain ⟨k₀, v₀⟩ := p
      by_cases h₀ : k₀ = k
      · subst h₀
        simp [alSet, alGet, Ne.symm h]
      · simp [alSet, alGet, h₀, ih]

theorem alGet_delete_self {α : Type} (m : List (String × α)) (k : String) :
    alGet (alDelete m k) k = none := by
  induction m with
  | nil => simp [alDelete, alGet]
  | cons p rest ih =>
      obtain ⟨k₀, v₀⟩ := p
      by_cases h₀ : k₀ = k
      · simp [alDelete, h₀, ih]
      · simp [alDelete, alGet, h₀, ih]

theorem alGet_delete_ne {α : Type} (m : List (String × α)) (k k' : String)
    (h : k' ≠ k) : alGet (alDelete m k) k' = alGet m k' := by
  induction m with
  | nil => simp [alDelete]
  | cons p rest ih =>
      obtain ⟨k₀, v₀⟩ := p
      by_cases h₀ : k₀ = k
      · subst h₀
        simp [alDelete, alGet, Ne.symm h, ih]
      · simp [alDelete, alGet, h₀, ih]

theorem alDelete_absent {α : Type} (m : List (String × α)) (k : String)
    (h : alGet m k = none) : alDelete m k = m := by
  induction m with
  | nil => simp [alDelete]
  | cons p rest ih =>
      obtain ⟨k₀, v₀⟩ := p
      by_cases h₀ : k₀ = k
      · simp [alGet, h₀] at h
      · simp [alGet, h₀] at h
        simp [alDelete, h₀, ih h]

theorem mem_alSet {α : Type} {m : List (String × α)} {k : String} {v : α}
    {p : String × α} (h : p ∈ alSet m k v) : p ∈ m ∨ p = (k, v) := by
  induction m with
  | nil => simp [alSet] at h; simp [h]
  | cons q rest ih =>
      obtain ⟨k₀, v₀⟩ := q
      by_cases h₀ : k₀ = k
      · simp [alSet, h₀] at h
        rcases h with h | h
        · right; simp [h]
        · left; simp [h]
      · simp [alSet, h₀] at h
        rcases h with h | h
        · left; simp [h]
        · rcases ih h with h' | h'
          · left; simp [h']
          · right; exact h'

theorem mem_alDelete {α : Type} {m : List (String × α)} {k : String}
    {p : String × α} (h : p ∈ alDelete m k) : p ∈ m := by
  induction m with
  | nil => simp [alDelete] at h
  | cons q rest ih =>
      obtain ⟨k₀, v₀⟩ := q
      by_cases h₀ : k₀ = k
      · simp [alDelete, h₀] at h
        simp [ih h]
      · simp [alDelete, h₀] at h
        rcases h with h | h
        · simp [h]
        · simp [ih h]

theorem keys_alDelete {α : Type} (m : List (String × α)) (k k' : String)
    (h : k' ∈ (alDelete m k).map Prod.fst) :
    k' ∈ m.map Prod.fst ∧ k' ≠ k := by
  induction m with
  | nil => simp [alDelete] at h
  | cons q rest ih =>
      obtain ⟨k₀, v₀⟩ := q
      by_cases h₀ : k₀ = k
      · rw [show alDelete ((k₀, v₀) :: rest) k = alDelete rest k by
          simp [alDelete, h₀]] at h
        rcases ih h with ⟨h₁, h₂⟩
        exact ⟨by rw [List.map_cons, List.mem_cons]; right; exact h₁, h₂⟩
      · rw [show alDelete ((k₀, v₀) :: rest) k = (k₀, v₀) :: alDelete rest k by
          simp [alDelete, h₀]] at h
        rw [List.map_cons, List.mem_cons] at h
        rcases h with h | h
        · subst h
          exact ⟨by simp, h₀⟩
        · rcases ih h with ⟨h₁, h₂⟩
          exact ⟨by rw [List.map_cons, List.mem_cons]; right; exact h₁, h₂⟩

/-! ## Per-key characterisation of the observer operations -/

/-- Number of occurrences of a name in an interest list. -/
def countOcc (k : String) : List String → Nat
  | [] => 0
  | i :: rest => (if i = k then 1 else 0) + countOcc k rest

/-- Effect of one `removeObserver` call on the list stored under its key:
splice out the last match, turning an emptied list into an absent entry. -/
def stripOne (ctx : Nat) : Option (List Observer) → Option (List Observer)
  | none => none
  | some l =>
      if (removeLastMatch ctx l).length = 0 then none
      else some (removeLastMatch ctx l)

/-- Iterated `stripOne`. -/
def stripN (ctx : Nat) : Option (List Observer) → Nat → Option (List Observer)
  | x, 0 => x
  | x, c + 1 => stripN ctx (stripOne ctx x) c

/-- Effect of `c` `registerObserver` calls of the same observer on the list
stored under their key. -/
def appendN (o : Observer) : Option (List Observer) → Nat → Option (List Observer)
  | some l, c => some (l ++ List.replicate c o)
  | none, 0 => none
  | none, c + 1 => some (List.replicate (c + 1) o)

theorem registerObserver_mediatorMap (v : ViewState) (k : String)
    (o : Observer) : (registerObserver v k o).mediatorMap = v.mediatorMap := by
  unfold registerObserver
  cases alGet v.observerMap k <;> rfl

theorem removeObserver_mediatorMap (v : ViewState) (k : String) (c : Nat) :
    (removeObserver v k c).mediatorMap = v.mediatorMap := by
  unfold removeObserver
  cases alGet v.observerMap k with
  | none => rfl
  | some l =>
      by_cases h : (removeLastMatch c l).length = 0 <;> simp [h]

theorem alGet_registerObserver_self (v : ViewState) (k : String)
    (o : Observer) :
    alGet (registerObserver v k o).observerMap k
      = some ((alGet v.observerMap k).getD [] ++ [o]) := by
  unfold registerObserver
  cases h : alGet v.observerMap k <;> simp [h, alGet_set_self]

theorem alGet_registerObserver_ne (v : ViewState) (k k' : String)
    (o : Observer) (h : k' ≠ k) :
    alGet (registerObserver v k o).observerMap k'
      = alGet v.observerMap k' := by
  unfold registerObserver
  cases hg : alGet v.observerMap k <;> simp [hg, alGet_set_ne _ _ _ _ h]

theorem alGet_removeObserver_self (v : ViewState) (k : String) (c : Nat) :
    alGet (removeObserver v k c).observerMap k
      = stripOne c (alGet v.observerMap k) := by
  unfold removeObserver
  cases hg : alGet v.observerMap k with
  | none => simp [stripOne, hg]
  | some l =>
      by_cases h : (removeLastMatch c l).length = 0 <;>
        simp [stripOne, h, alGet_delete_self, alGet_set_self]

theorem alGet_removeObserver_ne (v : ViewState) (k k' : String) (c : Nat)
    (h : k' ≠ k) :
    alGet (removeObserver v k c).observerMap k'
      = alGet v.observerMap k' := by
  unfold removeObserver
  cases hg : alGet v.observerMap k with
  | none => rfl
  | some l =>
      by_cases hl : (removeLastMatch c l).length = 0 <;>
        simp [hl, alGet_delete_ne _ _ _ h, alGet_set_ne _ _ _ _ h]

theorem appendN_zero (o : Observer) (x : Option (List Observer)) :
    appendN o x 0 = x := by
  cases x <;> simp [appendN]

theorem appendN_snoc (o : Observer) (x : Option (List Observer)) (c : Nat) :
    appendN o (some (x.getD [] ++ [o])) c = appendN o x (c + 1) := by
  cases x with
  | none => simp [appendN, List.replicate_succ]
  | some l => simp [appendN, List.replicate_succ]

theorem alGet_regFold (interests : List String) (v : ViewState)
    (o : Observer) (k : String) :
    alGet ((interests.foldl (fun acc i => registerObserver acc i o) v).observerMap) k
      = appendN o (alGet v.observerMap k) (countOcc k interests) := by
  induction interests generalizing v with
  | nil => simp [countOcc, appendN_zero]
  | cons i rest ih =>
      rw [List.foldl_cons, ih]
      by_cases h : i = k
      · subst h
        rw [alGet_registerObserver_self, appendN_snoc]
        simp [countOcc, Nat.add_comm]
      · rw [alGet_registerObserver_ne _ _ _ _ (Ne.symm h)]
        simp [countOcc, h]

theorem alGet_remFold (interests : List String) (v : ViewState) (c : Nat)
    (k : String) :
    alGet ((interests.foldl (fun acc i => removeObserver acc i c) v).observerMap) k
      = stripN c (alGet v.observerMap k) (countOcc k interests) := by
  induction interests generalizing v with
  | nil => simp [countOcc, stripN]
  | cons i rest ih =>
      rw [List.foldl_cons, ih]
      by_cases h : i = k
      · subst h
        rw [alGet_removeObserver_self]
        have : countOcc i (i :: rest) = countOcc i rest + 1 := by
          simp [countOcc, Nat.add_comm]
        rw [this]
        rfl
      · rw [alGet_removeObserver_ne _ _ _ _ (Ne.symm h)]
        simp [countOcc, h]

theorem regFold_mediatorMap (interests : List String) (v : ViewState)
    (o : Observer) :
    (interests.foldl (fun acc i => registerObserver acc i o) v).mediatorMap
      = v.mediatorMap := by
  induction interests generalizing v with
  | nil => rfl
  | cons i rest ih => rw [List.foldl_cons, ih, registerObserver_mediatorMap]

theorem remFold_mediatorMap (interests : List String) (v : ViewState)
    (c : Nat) :
    (interests.foldl (fun acc i => removeObserver acc i c) v).mediatorMap
      = v.mediatorMap := by
  induction interests generalizing v with
  | nil => rfl
  | cons i rest ih => rw [List.foldl_cons, ih, removeObserver_mediatorMap]

/-! ## Round-trip: registering then removing a mediator's observer -/

theorem removeLastMatch_snoc (c : Nat) (l : List Observer) (o : Observer)
    (h : o.compareNotifyContext c = true) :
    removeLastMatch c (l ++ [o]) = l := by
  unfold removeLastMatch
  rw [List.reverse_append]
  simp [removeFirstMatch, h]

theorem stripOne_some (ctx : Nat) (l : List Observer) :
    stripOne ctx (some l)
      = if (removeLastMatch ctx l).length = 0 then none
        else some (removeLastMatch ctx l) := rfl

theorem stripOne_appendN_succ (ctx : Nat) (o : Observer)
    (x : Option (List Observer)) (c : Nat)
    (hmatch : o.compareNotifyContext ctx = true) (hx : x ≠ some []) :
    stripOne ctx (appendN o x (c + 1)) = appendN o x c := by
  cases x with
  | none =>
      show stripOne ctx (some (List.replicate (c + 1) o)) = _
      rw [show List.replicate (c + 1) o = List.replicate c o ++ [o] by
        simp [List.replicate_succ']]
      rw [stripOne_some, removeLastMatch_snoc _ _ _ hmatch]
      cases c with
      | zero => simp [appendN]
      | succ c' => simp [appendN]
  | some l =>
      have hl : l ≠ [] := fun hh => hx (by rw [hh])
      show stripOne ctx (some (l ++ List.replicate (c + 1) o)) = _
      rw [show l ++ List.replicate (c + 1) o
            = (l ++ List.replicate c o) ++ [o] by
        simp [List.replicate_succ']]
      rw [stripOne_some, removeLastMatch_snoc _ _ _ hmatch]
      have : (l ++ List.replicate c o).length ≠ 0 := by
        simp [List.length_append]
        intro hcon
        exact absurd hcon hl
      rw [if_neg this]
      rfl

theorem stripN_appendN (ctx : Nat) (o : Observer) (x : Option (List Observer))
    (c : Nat) (hmatch : o.compareNotifyContext ctx = true)
    (hx : x ≠ some []) :
    stripN ctx (appendN o x c) c = x := by
  induction c with
  | zero => rw [appendN_zero]; rfl
  | succ c' ih =>
      show stripN ctx (stripOne ctx (appendN o x (c' + 1))) c' = x
      rw [stripOne_appendN_succ _ _ _ _ hmatch hx, ih]

/-! ## Dispatch loop lemmas -/

theorem notifyLoop_fst {σ Err : Type}
    (run : Nat → Nat → Notification → σ → Except Err σ)
    (l : List Observer) (n : Notification) (w : σ) :
    (notifyLoop run l n w).1 = seqNotify run l n w := by
  induction l generalizing w with
  | nil => rfl
  | cons o rest ih =>
      show (notifyLoop run (o :: rest) n w).1 = _
      unfold notifyLoop seqNotify
      cases notifyObserver run o n w with
      | error e => rfl
      | ok w' => simpa using ih w'

theorem notifyLoop_trace_of_ok {σ Err : Type}
    (run : Nat → Nat → Notification → σ → Except Err σ)
    (l : List Observer) (n : Notification) (w w' : σ)
    (h : seqNotify run l n w = Except.ok w') :
    (notifyLoop run l n w).2 = l.map (fun o => (o, n)) := by
  induction l generalizing w with
  | nil => rfl
  | cons o rest ih =>
      unfold seqNotify at h
      unfold notifyLoop
      cases ho : notifyObserver run o n w with
      | error e => rw [ho] at h; exact absurd h (by simp)
      | ok w₁ =>
          rw [ho] at h
          simpa using ih w₁ h

theorem notifyLoop_trace_mem {σ Err : Type}
    (run : Nat → Nat → Notification → σ → Except Err σ)
    (l : List Observer) (n : Notification) (w : σ)
    (p : Observer × Notification) (h : p ∈ (notifyLoop run l n w).2) :
    p.1 ∈ l ∧ p.2 = n := by
  induction l generalizing w with
  | nil => simp [notifyLoop] at h
  | cons o rest ih =>
      unfold notifyLoop at h
      cases ho : notifyObserver run o n w with
      | error e =>
          rw [ho] at h
          simp at h
          simp [h]
      | ok w₁ =>
          rw [ho] at h
          simp at h
          rcases h with h | h
          · simp [h]
          · rcases ih w₁ h with ⟨h₁, h₂⟩
            exact ⟨by simp [h₁], h₂⟩

theorem notifyLoop_failure {σ Err : Type}
    (run : Nat → Nat → Notification → σ → Except Err σ)
    (pre post : List Observer) (bad : Observer) (n : Notification)
    (w w' : σ) (e : Err)
    (hpre : seqNotify run pre n w = Except.ok w')
    (hbad : notifyObserver run bad n w' = Except.error e) :
    notifyLoop run (pre ++ bad :: post) n w
      = (Except.error e, (pre ++ [bad]).map (fun o => (o, n))) := by
  induction pre generalizing w with
  | nil =>
      have hw : w = w' := by
        unfold seqNotify at hpre
        exact Except.ok.inj hpre
      subst hw
      show notifyLoop run (bad :: post) n w = _
      unfold notifyLoop
      rw [hbad]
      rfl
  | cons o rest ih =>
      unfold seqNotify at hpre
      show notifyLoop run (o :: (rest ++ bad :: post)) n w = _
      unfold notifyLoop
      cases ho : notifyObserver run o n w with
      | error e' => rw [ho] at hpre; exact absurd hpre (by simp)
      | ok w₁ =>
          rw [ho] at hpre
          simp at hpre
          simp [ih w₁ hpre]

/-! ## Witness fixtures -/

/-- Handler semantics where every callback succeeds, adding the context id
to the world counter. -/
def wRunOk : Nat → Nat → Notification → Nat → Except String Nat :=
  fun _ ctx _ w => Except.ok (w + ctx)

/-- Handler semantics where callback 9 rejects and every other callback
succeeds. -/
def wRunFail : Nat → Nat → Notification → Nat → Except String Nat :=
  fun method _ _ w => if method = 9 then Except.error "boom" else Except.ok (w + 1)

/-- A view with two observers registered (in this order) under "X". -/
def wView2 : ViewState := ⟨[], [("X", [⟨1, 1⟩, ⟨2, 2⟩])]⟩

/-- A view whose "X" list holds a failing observer in the middle. -/
def wView3 : ViewState := ⟨[], [("X", [⟨1, 1⟩, ⟨9, 2⟩, ⟨3, 3⟩])]⟩

/-- The notification named "X". -/
def wNoteX : Notification := ⟨"X", 0⟩

/-- Claim C1: `notifyObservers(n)` looks up the observer list under
`n.getName()`; when no list exists it returns at once invoking nothing;
otherwise the outcome is the strictly sequential awaited run of the
handlers (each started on the world produced by the previous one), and,
when that run completes, the invocation trace is exactly the stored list in
registration order, each observer invoked once per registration entry and
passed the same notification object. -/
theorem notifyObservers_correct {σ Err : Type}
    (run : Nat → Nat → Notification → σ → Except Err σ)
    (v : ViewState) (n : Notification) (w : σ) :
    (alGet v.observerMap n.name = none →
        notifyObservers run v n w = (Except.ok w, [])) ∧
    (∀ observers, alGet v.observerMap n.name = some observers →
        (notifyObservers run v n w).1 = seqNotify run observers n w ∧
        (∀ w', seqNotify run observers n w = Except.ok w' →
            (notifyObservers run v n w).2
              = observers.map (fun o => (o, n)))) := by
  constructor
  · intro h
    unfold notifyObservers
    rw [h]
  · intro observers h
    constructor
    · unfold notifyObservers
      rw [h]
      exact notifyLoop_fst run observers n w
    · intro w' hok
      unfold notifyObservers
      rw [h]
      exact notifyLoop_trace_of_ok run observers n w w' hok

/-- Witness for C1: on `wView2`, dispatching "X" with all-succeeding
handlers invokes observers ⟨1,1⟩ then ⟨2,2⟩, each with the notification. -/
theorem notifyObservers_correct_witness :
    (notifyObservers wRunOk wView2 wNoteX 0).2
      = [(⟨1, 1⟩, wNoteX), (⟨2, 2⟩, wNoteX)] :=
  ((notifyObservers_correct wRunOk wView2 wNoteX 0).2
      [⟨1, 1⟩, ⟨2, 2⟩] (by decide)).2 3 rfl

/-- Claim C3: when the observer at position k of the dispatched list fails,
the failure propagates uncaught to the caller of `notifyObservers` and no
observer after position k is invoked in that dispatch (the trace stops at
the failing observer). -/
theorem notifyObservers_failFast {σ Err : Type}
    (run : Nat → Nat → Notification → σ → Except Err σ)
    (v : ViewState) (n : Notification) (w w' : σ)
    (pre post : List Observer) (bad : Observer) (e : Err)
    (hget : alGet v.observerMap n.name = some (pre ++ bad :: post))
    (hpre : seqNotify run pre n w = Except.ok w')
    (hbad : notifyObserver run bad n w' = Except.error e) :
    notifyObservers run v n w
      = (Except.error e, (pre ++ [bad]).map (fun o => (o, n))) := by
  unfold notifyObservers
  rw [hget]
  exact notifyLoop_failure run pre post bad n w w' e hpre hbad

/-- Witness for C3: on `wView3` the middle observer ⟨9,2⟩ rejects; the
error escapes and the third observer ⟨3,3⟩ is never invoked. -/
theorem notifyObservers_failFast_witness :
    notifyObservers wRunFail wView3 wNoteX 0
      = (Except.error "boom", [(⟨1, 1⟩, wNoteX), (⟨9, 2⟩, wNoteX)]) :=
  notifyObservers_failFast wRunFail wView3 wNoteX 0 1
    [⟨1, 1⟩] [⟨3, 3⟩] ⟨9, 2⟩ "boom" (by decide) rfl rfl

/-! ## Mediator registration characterisation -/

/-- A view with one mediator "M" (identity 5, handler 7) registered and its
observer stored under "X". -/
def wViewMed : ViewState :=
  ⟨[("M", ⟨"M", 5, 7⟩)], [("X", [⟨7, 5⟩])]⟩

theorem registerMediator_fresh (v : ViewState) (m : Mediator)
    (interests : List String) (h : alHas v.mediatorMap m.name = false) :
    (registerMediator v m interests).1
      = interests.foldl
          (fun acc i => registerObserver acc i (⟨m.handler, m.ctx⟩ : Observer))
          { v with mediatorMap := alSet v.mediatorMap m.name m } := by
  unfold registerMediator
  rw [h]
  cases interests with
  | nil => simp
  | cons i rest => simp

theorem removeMediator_found (v : ViewState) (name : String) (m : Mediator)
    (interests : List String) (h : alGet v.mediatorMap name = some m) :
    removeMediator v name interests
      = ({ interests.foldl (fun acc i => removeObserver acc i m.ctx) v with
            mediatorMap :=
              alDelete (interests.foldl
                (fun acc i => removeObserver acc i m.ctx) v).mediatorMap name },
          some m, [Event.onRemove m.ctx]) := by
  unfold removeMediator
  rw [h]

/-- Claim C6: `registerMediator` with an already-present mediator name is a
silent no-op: no exception is modelled (the source returns), the view state
(both maps) is unchanged, and no lifecycle event fires — in particular the
new mediator's `onRegister` is not invoked and no observer is added
anywhere. -/
theorem registerMediator_noop (v : ViewState) (m : Mediator)
    (interests : List String) (h : alHas v.mediatorMap m.name = true) :
    registerMediator v m interests = (v, []) := by
  unfold registerMediator
  rw [h]
  rfl

/-- Witness for C6: re-registering name "M" over `wViewMed` changes
nothing and fires no hook. -/
theorem registerMediator_noop_witness :
    registerMediator wViewMed ⟨"M", 6, 8⟩ ["X", "Y"] = (wViewMed, []) :=
  registerMediator_noop wViewMed ⟨"M", 6, 8⟩ ["X", "Y"] (by decide)

/-- Claim C7: after `registerProxy(p)`, `hasProxy` is true and
`retrieveProxy` returns the very proxy `p` (its `data` field untouched);
after `removeProxy(p.name)`, the call returns `p`, `hasProxy` is false and
`retrieveProxy` returns the explicit absent result. -/
theorem model_proxy_lifecycle (m : ModelState) (p : Proxy) :
    hasProxy (registerProxy m p).1 p.name = true ∧
    retrieveProxy (registerProxy m p).1 p.name = some p ∧
    (removeProxy (registerProxy m p).1 p.name).2.1 = some p ∧
    hasProxy (removeProxy (registerProxy m p).1 p.name).1 p.name = false ∧
    retrieveProxy (removeProxy (registerProxy m p).1 p.name).1 p.name
      = none := by
  have hget : alGet (registerProxy m p).1.proxyMap p.name = some p := by
    show alGet (alSet m.proxyMap p.name p) p.name = some p
    exact alGet_set_self _ _ _
  have hrem : removeProxy (registerProxy m p).1 p.name
      = (⟨alDelete (registerProxy m p).1.proxyMap p.name⟩, some p,
          [Event.onRemove p.ctx]) := by
    unfold removeProxy
    rw [hget]
  refine ⟨?_, ?_, ?_, ?_, ?_⟩
  · show alHas _ _ = true
    unfold alHas
    rw [hget]
    rfl
  · exact hget
  · rw [hrem]
  · rw [hrem]
    show (alGet (alDelete (registerProxy m p).1.proxyMap p.name) p.name).isSome
      = false
    rw [alGet_delete_self]
    rfl
  · rw [hrem]
    exact alGet_delete_self _ _

/-- Claim C10: proxy re-registration under the same name is accepted (unlike
mediator re-registration): the map now yields the new proxy `p2`,
`p2.onRegister` fires, and the replacement fires no `onRemove` for the
displaced `p1` (the only event of the call is `onRegister p2`). -/
theorem registerProxy_overwrite (m : ModelState) (p1 p2 : Proxy)
    (h : p1.name = p2.name) :
    retrieveProxy (registerProxy (registerProxy m p1).1 p2).1 p1.name
      = some p2 ∧
    (registerProxy (registerProxy m p1).1 p2).2
      = [Event.onRegister p2.ctx] := by
  constructor
  · rw [h]
    show alGet (alSet (registerProxy m p1).1.proxyMap p2.name p2) p2.name
      = some p2
    exact alGet_set_self _ _ _
  · rfl

/-- Witness for C10: replacing proxy "colors" (identity 1) by a same-named
proxy (identity 2) yields the new proxy; only `onRegister 2` fires. -/
theorem registerProxy_overwrite_witness :
    retrieveProxy (registerProxy
        (registerProxy ModelState.empty ⟨"colors", 1, ["red"]⟩).1
        ⟨"colors", 2, ["blue"]⟩).1 "colors"
      = some ⟨"colors", 2, ["blue"]⟩ ∧
    (registerProxy (registerProxy ModelState.empty ⟨"colors", 1, ["red"]⟩).1
        ⟨"colors", 2, ["blue"]⟩).2
      = [Event.onRegister 2] :=
  registerProxy_overwrite ModelState.empty ⟨"colors", 1, ["red"]⟩
    ⟨"colors", 2, ["blue"]⟩ rfl

/-- Claim C8: invoking the `View` or `Model` constructor while the singleton
instance exists throws (the guard runs before any assignment, so the stored
instance — with all its registered state — is untouched). -/
theorem duplicate_construction_throws (v : ViewState) (m : ModelState) :
    viewConstruct (some v)
      = (some v, Except.error "View singleton already constructed!") ∧
    modelConstruct (some m)
      = (some m, Except.error "Model singleton already constructed!") :=
  ⟨rfl, rfl⟩

/-! ## Dispose: the mediator / proxy maps are fully drained -/

theorem removeMediator_mediatorMap (v : ViewState) (name : String)
    (interests : List String) :
    ((removeMediator v name interests).1).mediatorMap
      = alDelete v.mediatorMap name := by
  unfold removeMediator
  cases h : alGet v.mediatorMap name with
  | none =>
      show v.mediatorMap = _
      rw [alDelete_absent _ _ h]
  | some m =>
      show alDelete ((interests.foldl
          (fun acc i => removeObserver acc i m.ctx) v)).mediatorMap name = _
      rw [remFold_mediatorMap]

theorem removeProxy_proxyMap (m : ModelState) (name : String) :
    ((removeProxy m name).1).proxyMap = alDelete m.proxyMap name := by
  unfold removeProxy
  cases h : alGet m.proxyMap name with
  | none =>
      show m.proxyMap = _
      rw [alDelete_absent _ _ h]
  | some p => rfl

theorem foldDelete_keys_nil {α : Type} (names : List String)
    (m : List (String × α)) (h : ∀ k ∈ m.map Prod.fst, k ∈ names) :
    names.foldl (fun acc nm => alDelete acc nm) m = [] := by
  induction names generalizing m with
  | nil =>
      cases m with
      | nil => rfl
      | cons p rest => exact absurd (h p.1 (by simp)) (by simp)
  | cons nm rest ih =>
      rw [List.foldl_cons]
      apply ih
      intro k hk
      rcases keys_alDelete m nm k hk with ⟨h₁, h₂⟩
      rcases List.mem_cons.mp (h k h₁) with h₃ | h₃
      · exact absurd h₃ h₂
      · exact h₃

theorem disposeFold_mediatorMap (names : List String) (v : ViewState)
    (f : String → List String) :
    (names.foldl (fun acc name => (removeMediator acc name (f name)).1)
        v).mediatorMap
      = names.foldl (fun acc nm => alDelete acc nm) v.mediatorMap := by
  induction names generalizing v with
  | nil => rfl
  | cons nm rest ih =>
      rw [List.foldl_cons, List.foldl_cons, ih, removeMediator_mediatorMap]

theorem disposeFold_proxyMap (names : List String) (m : ModelState) :
    (names.foldl (fun acc name => (removeProxy acc name).1) m).proxyMap
      = names.foldl (fun acc nm => alDelete acc nm) m.proxyMap := by
  induction names generalizing m with
  | nil => rfl
  | cons nm rest ih =>
      rw [List.foldl_cons, List.foldl_cons, ih, removeProxy_proxyMap]

theorem viewDispose_mediatorMap (v : ViewState)
    (f : String → List String) : ((viewDispose v f).1).mediatorMap = [] := by
  show ((v.mediatorMap.map Prod.fst).foldl
      (fun acc name => (removeMediator acc name (f name)).1) v).mediatorMap = []
  rw [disposeFold_mediatorMap]
  exact foldDelete_keys_nil _ _ (fun k hk => hk)

theorem modelDispose_proxyMap (m : ModelState) :
    ((modelDispose m).1).proxyMap = [] := by
  show ((m.proxyMap.map Prod.fst).foldl
      (fun acc name => (removeProxy acc name).1) m).proxyMap = []
  rw [disposeFold_proxyMap]
  exact foldDelete_keys_nil _ _ (fun k hk => hk)

theorem viewDispose_of_no_mediators (v : ViewState)
    (f : String → List String) (h : v.mediatorMap = []) :
    viewDispose v f = (v, none) := by
  unfold viewDispose
  rw [h]
  rfl

theorem modelDispose_of_no_proxies (m : ModelState)
    (h : m.proxyMap = []) : modelDispose m = (m, none) := by
  unfold modelDispose
  rw [h]
  rfl

/-- Claim C9: disposing twice in succession does not throw (the second call
iterates an emptied registry and is the identity on the object, clearing
the already-cleared static instance), and after `dispose()` the singleton
is re-constructible: `getInstance()` builds and returns a fresh instance
with empty registries.  Stated for both `View` and `Model`. -/
theorem dispose_idempotent_reconstructible (v : ViewState) (m : ModelState)
    (f g : String → List String) :
    (viewDispose v f).2 = none ∧
    viewDispose (viewDispose v f).1 g = ((viewDispose v f).1, none) ∧
    viewGetInstance (viewDispose v f).2
      = (some ViewState.empty, Except.ok ViewState.empty) ∧
    (modelDispose m).2 = none ∧
    modelDispose (modelDispose m).1 = ((modelDispose m).1, none) ∧
    modelGetInstance (modelDispose m).2
      = (some ModelState.empty, Except.ok ModelState.empty) := by
  refine ⟨rfl, ?_, rfl, rfl, ?_, rfl⟩
  · exact viewDispose_of_no_mediators _ g (viewDispose_mediatorMap v f)
  · exact modelDispose_of_no_proxies _ (modelDispose_proxyMap m)

/-! ## Observer-map invariants used by the register/remove round trip -/

/-- Decidable check: every key of the observer map holds a non-empty list. -/
def observerMapOk (v : ViewState) : Bool :=
  v.observerMap.all (fun p => !p.2.isEmpty)

/-- Decidable check: no observer anywhere in the observer map has notify
context `c`. -/
def noCtx (c : Nat) (v : ViewState) : Bool :=
  v.observerMap.all (fun p => p.2.all (fun o => !(o.context == c)))

theorem alGet_mem {α : Type} {m : List (String × α)} {k : String} {x : α}
    (h : alGet m k = some x) : (k, x) ∈ m := by
  induction m with
  | nil => simp [alGet] at h
  | cons q rest ih =>
      obtain ⟨k₀, v₀⟩ := q
      by_cases h₀ : k₀ = k
      · subst h₀
        simp [alGet] at h
        simp [h]
      · simp [alGet, h₀] at h
        simp [ih h]

theorem observerMapOk_no_empty {v : ViewState} {k : String}
    (hok : observerMapOk v = true) : alGet v.observerMap k ≠ some [] := by
  intro h
  have hmem := alGet_mem h
  unfold observerMapOk at hok
  rw [List.all_eq_true] at hok
  have := hok _ hmem
  simp at this

theorem noCtx_spec {c : Nat} {v : ViewState} {k : String}
    {l : List Observer} {o : Observer} (h : noCtx c v = true)
    (hg : alGet v.observerMap k = some l) (ho : o ∈ l) : o.context ≠ c := by
  have hmem := alGet_mem hg
  unfold noCtx at h
  rw [List.all_eq_true] at h
  have := h _ hmem
  rw [List.all_eq_true] at this
  have := this _ ho
  simpa using this

/-- The observer created for a mediator matches the mediator's own identity
as its notify context. -/
theorem mediator_observer_matches (m : Mediator) :
    (⟨m.handler, m.ctx⟩ : Observer).compareNotifyContext m.ctx = true := by
  simp [Observer.compareNotifyContext]

theorem countOcc_eq_zero_of_not_mem {x : String} {I : List String}
    (h : x ∉ I) : countOcc x I = 0 := by
  induction I with
  | nil => rfl
  | cons i rest ih =>
      have hne : i ≠ x := fun hh => h (by simp [hh])
      have hrest : x ∉ rest := fun hh => h (by simp [hh])
      simp [countOcc, hne, ih hrest]

theorem countOcc_pos_of_mem {x : String} {I : List String} (h : x ∈ I) :
    0 < countOcc x I := by
  induction I with
  | nil => simp at h
  | cons i rest ih =>
      rcases List.mem_cons.mp h with h₁ | h₁
      · simp [countOcc, h₁]
      · have := ih h₁
        unfold countOcc
        omega

/-- Registering then removing a mediator over the same interest list leaves
every per-name observer list exactly as it was. -/
theorem roundtrip_observer_list (v : ViewState) (m : Mediator)
    (I : List String) (k : String)
    (hmed : alHas v.mediatorMap m.name = false)
    (hok : observerMapOk v = true) :
    alGet ((removeMediator (registerMediator v m I).1 m.name I).1).observerMap k
      = alGet v.observerMap k := by
  have hv1 := registerMediator_fresh v m I hmed
  have hfind : alGet ((registerMediator v m I).1).mediatorMap m.name
      = some m := by
    rw [hv1, regFold_mediatorMap]
    exact alGet_set_self _ _ _
  rw [removeMediator_found _ _ _ _ hfind]
  show alGet ((I.foldl (fun acc i => removeObserver acc i m.ctx)
      (registerMediator v m I).1).observerMap) k = _
  rw [alGet_remFold, hv1, alGet_regFold]
  show stripN m.ctx
      (appendN ⟨m.handler, m.ctx⟩ (alGet v.observerMap k) (countOcc k I))
      (countOcc k I) = _
  exact stripN_appendN m.ctx ⟨m.handler, m.ctx⟩ (alGet v.observerMap k)
    (countOcc k I) (mediator_observer_matches m) (observerMapOk_no_empty hok)

/-- Claim C2: for a not-yet-registered mediator whose interest list is the
same at registration and at removal, and a view whose observer lists are
non-empty-per-key and hold no observer contexted on that mediator,
`registerMediator(m)` followed by `removeMediator(m.name)` returns `m`,
leaves `hasMediator` false, and a subsequent dispatch of a notification
named by any of the interests never invokes an observer whose notify
context is the mediator — i.e. never invokes `m.handleNotification`. -/
theorem mediator_register_remove_roundtrip {σ Err : Type}
    (run : Nat → Nat → Notification → σ → Except Err σ)
    (v : ViewState) (m : Mediator) (I : List String) (n : Notification)
    (w : σ)
    (hmed : alHas v.mediatorMap m.name = false)
    (hok : observerMapOk v = true)
    (hctx : noCtx m.ctx v = true)
    (hn : n.name ∈ I) :
    (removeMediator (registerMediator v m I).1 m.name I).2.1 = some m ∧
    hasMediator (removeMediator (registerMediator v m I).1 m.name I).1 m.name
      = false ∧
    ((notifyObservers run
        (removeMediator (registerMediator v m I).1 m.name I).1 n w).2.all
      (fun p => !(p.1.context == m.ctx))) = true := by
  have hv1 := registerMediator_fresh v m I hmed
  have hfind : alGet ((registerMediator v m I).1).mediatorMap m.name
      = some m := by
    rw [hv1, regFold_mediatorMap]
    exact alGet_set_self _ _ _
  refine ⟨?_, ?_, ?_⟩
  · rw [removeMediator_found _ _ _ _ hfind]
  · rw [removeMediator_found _ _ _ _ hfind]
    show ((alGet (alDelete _ m.name) m.name).isSome) = false
    rw [alGet_delete_self]
    rfl
  · have hobs := roundtrip_observer_list v m I n.name hmed hok
    rw [List.all_eq_true]
    intro p hp
    unfold notifyObservers at hp
    rw [hobs] at hp
    cases hcase : alGet v.observerMap n.name with
    | none => rw [hcase] at hp; simp at hp
    | some l =>
        rw [hcase] at hp
        rcases notifyLoop_trace_mem run l n w p hp with ⟨h₁, _⟩
        have := noCtx_spec hctx hcase h₁
        simpa using this

/-- Witness for C2: from the empty view, register mediator "M" (identity 5,
handler 7) with interests ["X","Y"], remove it, then dispatch "X": the
removal returned the mediator, `hasMediator` is false, and no invoked
observer has the mediator as context. -/
theorem mediator_register_remove_roundtrip_witness :
    (removeMediator (registerMediator ViewState.empty ⟨"M", 5, 7⟩
        ["X", "Y"]).1 "M" ["X", "Y"]).2.1 = some ⟨"M", 5, 7⟩ ∧
    hasMediator (removeMediator (registerMediator ViewState.empty ⟨"M", 5, 7⟩
        ["X", "Y"]).1 "M" ["X", "Y"]).1 "M" = false ∧
    ((notifyObservers wRunOk
        (removeMediator (registerMediator ViewState.empty ⟨"M", 5, 7⟩
          ["X", "Y"]).1 "M" ["X", "Y"]).1 wNoteX 0).2.all
      (fun p => !(p.1.context == 5))) = true :=
  mediator_register_remove_roundtrip wRunOk ViewState.empty ⟨"M", 5, 7⟩
    ["X", "Y"] wNoteX 0 (by decide) (by decide) (by decide) (by decide)

theorem stripN_zero (ctx : Nat) (x : Option (List Observer)) :
    stripN ctx x 0 = x := rfl

/-- Claim C5: `removeMediator` strips observer entries according to the
interest list the mediator reports AT REMOVAL TIME (the observer fold runs
over `Irem`, not over a cached registration-time list), so an observer
entry registered under a name `x` the mediator reported at registration
but no longer reports at removal stays in the observer map. -/
theorem removeMediator_requeries_interests (v : ViewState) (m : Mediator)
    (Ireg Irem : List String) (x : String)
    (hmed : alHas v.mediatorMap m.name = false)
    (hx_reg : x ∈ Ireg) (hx_rem : x ∉ Irem) :
    ((removeMediator (registerMediator v m Ireg).1 m.name Irem).1).observerMap
      = (Irem.foldl (fun acc i => removeObserver acc i m.ctx)
          (registerMediator v m Ireg).1).observerMap ∧
    (⟨m.handler, m.ctx⟩ : Observer) ∈
      ((alGet ((removeMediator (registerMediator v m Ireg).1 m.name
          Irem).1).observerMap x).getD []) := by
  have hv1 := registerMediator_fresh v m Ireg hmed
  have hfind : alGet ((registerMediator v m Ireg).1).mediatorMap m.name
      = some m := by
    rw [hv1, regFold_mediatorMap]
    exact alGet_set_self _ _ _
  constructor
  · rw [removeMediator_found _ _ _ _ hfind]
  · rw [removeMediator_found _ _ _ _ hfind]
    show (⟨m.handler, m.ctx⟩ : Observer) ∈
      ((alGet ((Irem.foldl (fun acc i => removeObserver acc i m.ctx)
          (registerMediator v m Ireg).1).observerMap) x).getD [])
    rw [alGet_remFold, countOcc_eq_zero_of_not_mem hx_rem, stripN_zero,
      hv1, alGet_regFold]
    rcases hc : countOcc x Ireg with _ | c
    · exact absurd hc (by
        have := countOcc_pos_of_mem hx_reg
        omega)
    · show (⟨m.handler, m.ctx⟩ : Observer) ∈
        ((appendN ⟨m.handler, m.ctx⟩ (alGet v.observerMap x) (c + 1)).getD [])
      cases hg : alGet v.observerMap x with
      | none => simp [appendN, List.mem_replicate]
      | some l => simp [appendN, List.mem_replicate]

/-- Witness for C5: register mediator "M" with interests ["X","Y"], remove
it while it reports only ["Y"]: its observer entry under "X" survives. -/
theorem removeMediator_requeries_interests_witness :
    ((removeMediator (registerMediator ViewState.empty ⟨"M", 5, 7⟩
        ["X", "Y"]).1 "M" ["Y"]).1).observerMap
      = ((["Y"] : List String).foldl (fun acc i => removeObserver acc i 5)
          (registerMediator ViewState.empty ⟨"M", 5, 7⟩ ["X", "Y"]).1).observerMap ∧
    (⟨7, 5⟩ : Observer) ∈
      ((alGet ((removeMediator (registerMediator ViewState.empty ⟨"M", 5, 7⟩
          ["X", "Y"]).1 "M" ["Y"]).1).observerMap "X").getD []) :=
  removeMediator_requeries_interests ViewState.empty ⟨"M", 5, 7⟩
    ["X", "Y"] ["Y"] "X" (by decide) (by decide) (by decide)

/-! ## The non-empty-observer-list invariant (C4) -/

theorem observerMapOk_iff (v : ViewState) :
    observerMapOk v = true ↔ ∀ k l, (k, l) ∈ v.observerMap → l ≠ [] := by
  unfold observerMapOk
  rw [List.all_eq_true]
  constructor
  · intro h k l hm hnil
    have := h _ hm
    subst hnil
    simp at this
  · intro h p hp
    obtain ⟨k, l⟩ := p
    have := h k l hp
    simpa using this

theorem inv_registerObserver (v : ViewState) (k₀ : String) (o : Observer)
    (h : ∀ k l, (k, l) ∈ v.observerMap → l ≠ []) :
    ∀ k l, (k, l) ∈ (registerObserver v k₀ o).observerMap → l ≠ [] := by
  unfold registerObserver
  cases hg : alGet v.observerMap k₀ with
  | some obs =>
      intro k l hm
      rcases mem_alSet hm with h₁ | h₁
      · exact h k l h₁
      · rw [Prod.mk.injEq] at h₁
        rw [h₁.2]
        simp
  | none =>
      intro k l hm
      rcases mem_alSet hm with h₁ | h₁
      · exact h k l h₁
      · rw [Prod.mk.injEq] at h₁
        rw [h₁.2]
        simp

theorem inv_removeObserver (v : ViewState) (k₀ : String) (c : Nat)
    (h : ∀ k l, (k, l) ∈ v.observerMap → l ≠ []) :
    ∀ k l, (k, l) ∈ (removeObserver v k₀ c).observerMap → l ≠ [] := by
  unfold removeObserver
  cases hg : alGet v.observerMap k₀ with
  | none => exact h
  | some obs =>
      show ∀ k l, (k, l) ∈
        (if (removeLastMatch c obs).length = 0 then
            { v with observerMap := alDelete v.observerMap k₀ }
          else
            { v with observerMap :=
                alSet v.observerMap k₀ (removeLastMatch c obs) }).observerMap
        → l ≠ []
      by_cases hlen : (removeLastMatch c obs).length = 0
      · rw [if_pos hlen]
        intro k l hm
        exact h k l (mem_alDelete hm)
      · rw [if_neg hlen]
        intro k l hm
        rcases mem_alSet hm with h₁ | h₁
        · exact h k l h₁
        · rw [Prod.mk.injEq] at h₁
          rw [h₁.2]
          intro hnil
          rw [hnil] at hlen
          exact hlen rfl

theorem inv_regFold (interests : List String) (v : ViewState) (o : Observer)
    (h : ∀ k l, (k, l) ∈ v.observerMap → l ≠ []) :
    ∀ k l, (k, l) ∈ ((interests.foldl
        (fun acc i => registerObserver acc i o) v)).observerMap → l ≠ [] := by
  induction interests generalizing v with
  | nil => exact h
  | cons i rest ih =>
      rw [List.foldl_cons]
      exact ih _ (inv_registerObserver v i o h)

theorem inv_remFold (interests : List String) (v : ViewState) (c : Nat)
    (h : ∀ k l, (k, l) ∈ v.observerMap → l ≠ []) :
    ∀ k l, (k, l) ∈ ((interests.foldl
        (fun acc i => removeObserver acc i c) v)).observerMap → l ≠ [] := by
  induction interests generalizing v with
  | nil => exact h
  | cons i rest ih =>
      rw [List.foldl_cons]
      exact ih _ (inv_removeObserver v i c h)

theorem inv_registerMediator (v : ViewState) (m : Mediator)
    (interests : List String)
    (h : ∀ k l, (k, l) ∈ v.observerMap → l ≠ []) :
    ∀ k l, (k, l) ∈ ((registerMediator v m interests).1).observerMap
      → l ≠ [] := by
  cases hh : alHas v.mediatorMap m.name with
  | true =>
      rw [show (registerMediator v m interests).1 = v by
        rw [registerMediator_noop v m interests hh]]
      exact h
  | false =>
      rw [registerMediator_fresh v m interests hh]
      exact inv_regFold interests _ _ h

theorem inv_removeMediator (v : ViewState) (name : String)
    (interests : List String)
    (h : ∀ k l, (k, l) ∈ v.observerMap → l ≠ []) :
    ∀ k l, (k, l) ∈ ((removeMediator v name interests).1).observerMap
      → l ≠ [] := by
  cases hg : alGet v.mediatorMap name with
  | none =>
      rw [show (removeMediator v name interests).1 = v by
        unfold removeMediator
        rw [hg]]
      exact h
  | some m =>
      rw [removeMediator_found v name m interests hg]
      exact inv_remFold interests v m.ctx h

theorem inv_remMedFold (names : List String) (v : ViewState)
    (f : String → List String)
    (h : ∀ k l, (k, l) ∈ v.observerMap → l ≠ []) :
    ∀ k l, (k, l) ∈ ((names.foldl
        (fun acc name => (removeMediator acc name (f name)).1) v)).observerMap
      → l ≠ [] := by
  induction names generalizing v with
  | nil => exact h
  | cons nm rest ih =>
      rw [List.foldl_cons]
      exact ih _ (inv_removeMediator v nm (f nm) h)

theorem inv_viewDispose (v : ViewState) (f : String → List String)
    (h : ∀ k l, (k, l) ∈ v.observerMap → l ≠ []) :
    ∀ k l, (k, l) ∈ ((viewDispose v f).1).observerMap → l ≠ [] := by
  show ∀ k l, (k, l) ∈ (((v.mediatorMap.map Prod.fst).foldl
      (fun acc name => (removeMediator acc name (f name)).1) v)).observerMap
    → l ≠ []
  exact inv_remMedFold _ v f h

/-- View states reachable from a fresh `View` by the public mutating
operations.  `notifyObservers` never touches the two maps (in the
embedding its result type does not even produce a `ViewState`), so its
constructor keeps the state; `interests` arguments range over every value
the application's `listNotificationInterests()` could return. -/
inductive Reachable : ViewState → Prop
  | empty : Reachable ViewState.empty
  | regObs (v : ViewState) (k : String) (o : Observer) :
      Reachable v → Reachable (registerObserver v k o)
  | remObs (v : ViewState) (k : String) (c : Nat) :
      Reachable v → Reachable (removeObserver v k c)
  | regMed (v : ViewState) (m : Mediator) (interests : List String) :
      Reachable v → Reachable (registerMediator v m interests).1
  | remMed (v : ViewState) (name : String) (interests : List String) :
      Reachable v → Reachable (removeMediator v name interests).1
  | notify (v : ViewState) : Reachable v → Reachable v
  | disp (v : ViewState) (f : String → List String) :
      Reachable v → Reachable (viewDispose v f).1

/-- Claim C4: in every reachable view state, every key present in the
observer map holds a non-empty observer list — a notification name with
zero observers never exists as a key. -/
theorem view_observer_invariant (v : ViewState) (h : Reachable v) :
    observerMapOk v = true := by
  rw [observerMapOk_iff]
  induction h with
  | empty => intro k l hm; exact absurd hm (by simp [ViewState.empty])
  | regObs v' k o _ ih => exact inv_registerObserver v' k o ih
  | remObs v' k c _ ih => exact inv_removeObserver v' k c ih
  | regMed v' m interests _ ih => exact inv_registerMediator v' m interests ih
  | remMed v' nm interests _ ih => exact inv_removeMediator v' nm interests ih
  | notify v' _ ih => exact ih
  | disp v' f _ ih => exact inv_viewDispose v' f ih

/-- Witness for C4: the invariant evaluated on the state reached by one
`registerObserver` then one `removeObserver` from fresh. -/
theorem view_observer_invariant_witness :
    observerMapOk (removeObserver
      (registerObserver ViewState.empty "A" ⟨0, 0⟩) "A" 0) = true :=
  view_observer_invariant _
    (Reachable.remObs _ "A" 0
      (Reachable.regObs ViewState.empty "A" ⟨0, 0⟩ Reachable.empty))
